import Mathlib

/-!
Verification of the tonal spelling and classification engine of the
Music-Tools repository (src/musictools.py, with the chord classifier of
src/musictools_old.py).  Python objects are embedded shallowly: a `Note`
is the record of fields its constructor stores, Python `None` returns
become `Option`, and raised exceptions become `Except PyErr`.
-/

set_option maxHeartbeats 1600000

deriving instance DecidableEq for Except

namespace MusicTools

/-- Exceptions raised by the embedded Python code. -/
inductive PyErr where
  | valueError (msg : String)
  | typeError (msg : String)
  | keyError (msg : String)
  | exception (msg : String)
  deriving DecidableEq, Repr

/-- The `prefer` argument of `Note.enharmonic`: the Python strings "#" and "b"
(any other non-None value is rejected by the source before use, so the
embedding types it away). -/
inductive Pref where
  | sharp
  | flat
  deriving DecidableEq, Repr

/-- A Python `Note` object from src/musictools.py (lines 32-115).  The
constructor stores a validated name string, an optional octave, and the
rhythm fields.  A well-formed name is either "R" (`isRest = true`) or a
letter A-G followed by a uniform run of sharps or flats; the embedding
keeps the letter as its index in the C,D,E,F,G,A,B table (the order of
`__PITCH_VALUES`) and the accidental run as a signed count `acc`
(positive = sharps, negative = flats).  For a rest the letter and `acc`
fields are meaningless and canonically 0. -/
structure Note where
  isRest : Bool
  letter : Nat
  acc : Int
  octave : Option Int
  rhythm : Nat
  dots : Nat
  triplet : Bool
  deriving DecidableEq, Repr

/-- The `__PITCH_VALUES` table (lines 79-87): natural pitch class of each
letter index.  Indices above 6 do not arise for well-formed notes; the
value returned for them is irrelevant. -/
def naturalPitch : Nat → Int
  | 0 => 0
  | 1 => 2
  | 2 => 4
  | 3 => 5
  | 4 => 7
  | 5 => 9
  | _ => 11

/-- `Note.sharps` (lines 228-235): number of sharp signs in the name. -/
def Note.sharps (n : Note) : Int := if 0 < n.acc then n.acc else 0

/-- `Note.flats` (lines 237-244): number of flat signs in the name. -/
def Note.flats (n : Note) : Int := if n.acc < 0 then -n.acc else 0

/-- Length of the Python `note_name` string for a non-rest note:
the letter plus the accidental run. -/
def Note.nameLen (n : Note) : Nat := 1 + n.acc.natAbs

/-- `Note.pitch` (lines 246-263): natural pitch of the letter, adjusted by
the accidental run, with a single conditional wrap of 12 in each
direction (exactly as the source writes it; the wrap is *not* a full
mod). Returns `None` for a rest. -/
def Note.pitch (n : Note) : Option Int :=
  if n.isRest then none
  else
    let base := naturalPitch n.letter
    if n.sharps ≠ 0 then
      let p := base + n.sharps
      some (if 11 < p then p - 12 else p)
    else if n.flats ≠ 0 then
      let p := base - n.flats
      some (if p < 0 then p + 12 else p)
    else some base

/-- The `octave` property (lines 124-129): `None` for a rest, else the
stored value. -/
def Note.octaveProp (n : Note) : Option Int :=
  if n.isRest then none else n.octave

/-- `Note.hard_pitch` (lines 277-286).  The property raises no exception:
when the octave is absent it *returns* the Python value `None`
(`Except.ok none` here); otherwise `pitch + octave * 12`. -/
def Note.hard_pitch (n : Note) : Except PyErr (Option Int) :=
  match n.octaveProp with
  | none => .ok none
  | some o => .ok ((n.pitch).map (fun p => p + o * 12))

/-- `Note.frequency` (lines 288-298): `None` without an octave, else
`A4 * 2 ^ ((hard_pitch - 57) / 12)`; the tuning reference (module global
`__A4`, default 440) is threaded as the parameter `a4`. -/
noncomputable def Note.frequency (a4 : ℝ) (n : Note) : Option ℝ :=
  match n.octaveProp, n.pitch with
  | some o, some p => some (a4 * (2 : ℝ) ^ ((((p + o * 12) - 57 : Int) : ℝ) / 12))
  | _, _ => none

/-- The module default for the tuning reference `__A4` (line 5). -/
def defaultA4 : ℝ := 440

/-- `Note.from_values` (lines 453-472): validates the arguments, then
spells `pitch` on the given letter with the accidental offset wrapped
into the magnitude-minimising band (values above 5 drop by 12, values
below -6 rise by 12).  The constructed note has no octave and default
rhythm fields. -/
def Note.from_values (letter pitch : Int) : Except PyErr Note :=
  if letter < 0 ∨ 6 < letter then
    .error (.valueError "Letter argument should be an integer between 0 and 6, 0 for C, 1 for B, etc.")
  else if pitch < 0 ∨ 11 < pitch then
    .error (.valueError "Pitch argument should be an integer between 0 and 11, 0 for C natural (or equivalent), 1 for C#/Db, etc.")
  else
    let expected := naturalPitch letter.toNat
    let off0 := pitch - expected
    let off := if 5 < off0 then off0 - 12 else if off0 < -6 then off0 + 12 else off0
    .ok { isRest := false, letter := letter.toNat, acc := off,
          octave := none, rhythm := 0, dots := 0, triplet := false }

/-- The scan loop of `Note.from_hard_pitch` (lines 487-495): walk the
seven letters in table order; an exact natural match returns the
natural, a match one above a natural returns that natural sharped, or,
preferring flats, the *next* letter flatted.  The letter `i + 1` in the
flat branch mirrors `__PITCH_VALUES[index + 1]`; its only out-of-range
use (`i = 6`) would need pitch 12, which `emod 12` never produces.
Falling off the end returns Python `None`. -/
def fhp_scan (pitch octave : Int) (prefer_flat : Bool) : List Nat → Option Note
  | [] => none
  | i :: rest =>
    if pitch = naturalPitch i then
      some { isRest := false, letter := i, acc := 0, octave := some octave,
             rhythm := 0, dots := 0, triplet := false }
    else if pitch = naturalPitch i + 1 then
      if prefer_flat then
        some { isRest := false, letter := i + 1, acc := -1, octave := some octave,
               rhythm := 0, dots := 0, triplet := false }
      else
        some { isRest := false, letter := i, acc := 1, octave := some octave,
               rhythm := 0, dots := 0, triplet := false }
    else fhp_scan pitch octave prefer_flat rest

/-- `Note.from_hard_pitch` (lines 474-495): `octave = hard // 12`,
`pitch = hard % 12` (Python floor division and nonnegative remainder are
`Int.ediv` and `Int.emod`), then the letter scan. -/
def Note.from_hard_pitch (hard : Int) (prefer_flat : Bool) : Option Note :=
  fhp_scan (hard.emod 12) (hard.ediv 12) prefer_flat [0, 1, 2, 3, 4, 5, 6]

/-- `__GROSS_ROOTS` (line 300) keyed by letter index: the cross-natural
respelling of B, C, E, F as (letter, accidental). -/
def grossRootTarget : Nat → Option (Nat × Int)
  | 6 => some (0, -1)
  | 0 => some (6, 1)
  | 2 => some (3, -1)
  | 3 => some (2, 1)
  | _ => none

/-- `__NON_NATURAL` (line 301): the five black-key pitch classes. -/
def nonNatural : List Int := [1, 3, 6, 8, 10]

/-- Lines 361-365 of `enharmonic` (also lines 414-417 of `__add__`):
copy the receiver octave, rhythm (only when truthy, i.e. nonzero), dot
count and triplet flag onto a freshly constructed note. -/
def copyMeta (src tgt : Note) : Note :=
  { tgt with octave := src.octaveProp,
             rhythm := if src.rhythm ≠ 0 then src.rhythm else tgt.rhythm,
             dots := src.dots,
             triplet := src.triplet }

/-- The `while` loop of `enharmonic` (lines 344-356): shift the letter one
step in the accidental direction (wrapping over the seven letters) and
respell via `from_values` until the name fits within `limit` characters
of accidental.  The fuel only bounds the embedded recursion; the Python
loop either raises inside `from_values` or terminates within seven
shifts, since the letters cycle. -/
def enh_loop (sharpsIn : Bool) (pitch : Int) (limit : Nat) :
    Int → Nat → Except PyErr (Note × Int)
  | _, 0 => .error (.exception "unreachable: letter search exceeded its fuel")
  | letter, fuel + 1 =>
    let letter' :=
      if sharpsIn then (if 6 < letter + 1 then letter + 1 - 7 else letter + 1)
      else (if letter - 1 < 0 then letter - 1 + 7 else letter - 1)
    match Note.from_values letter' pitch with
    | .error e => .error e
    | .ok m =>
      if limit < m.nameLen then enh_loop sharpsIn pitch limit letter' fuel
      else .ok (m, letter')

/-- `Note.enharmonic` (lines 303-367).  Raises on a rest; with `gross`
set, the four boundary naturals respell across the natural gap (honouring
`prefer` by returning the receiver unchanged on a sign conflict); a
natural note returns itself; a single accidental shifts the letter one
step and respells; two or more accidentals walk the letter until the
spelling fits the limit (2 on a black-key pitch class, 1 otherwise) and
then, on a sign conflict with `prefer`, shift one further letter step
*without wrapping* (`new_letter + 1` / `new_letter - 1` straight into
`from_values`).  All constructed results receive the receiver octave,
rhythm, dots and triplet. -/
def Note.enharmonic (n : Note) (prefer : Option Pref) (gross : Bool) : Except PyErr Note :=
  match n.pitch with
  | none => .error (.exception "enharmonic is unusable on a rest.")
  | some p =>
    match (if gross ∧ n.acc = 0 then grossRootTarget n.letter else none) with
    | some (l, a) =>
      if 0 < a ∧ prefer = some .flat then .ok n
      else if a < 0 ∧ prefer = some .sharp then .ok n
      else .ok (copyMeta n { isRest := false, letter := l, acc := a, octave := none,
                             rhythm := 0, dots := 0, triplet := false })
    | none =>
      if n.nameLen = 1 then .ok n
      else if n.nameLen = 2 then
        if 0 < n.acc then
          if prefer = some .sharp then .ok n
          else
            match Note.from_values
                (if 6 < (n.letter : Int) + 1 then (n.letter : Int) + 1 - 7
                 else (n.letter : Int) + 1) p with
            | .error e => .error e
            | .ok m => .ok (copyMeta n m)
        else
          if prefer = some .flat then .ok n
          else
            match Note.from_values
                (if (n.letter : Int) - 1 < 0 then (n.letter : Int) - 1 + 7
                 else (n.letter : Int) - 1) p with
            | .error e => .error e
            | .ok m => .ok (copyMeta n m)
      else
        let limit : Nat := if p ∈ nonNatural then 2 else 1
        match enh_loop (0 < n.acc) p limit (n.letter : Int) 16 with
        | .error e => .error e
        | .ok (m, letter') =>
          match (if 0 < m.acc ∧ prefer = some .flat then Note.from_values (letter' + 1) p
                 else if m.acc < 0 ∧ prefer = some .sharp then Note.from_values (letter' - 1) p
                 else .ok m) with
          | .error e => .error e
          | .ok m' => .ok (copyMeta n m')

/-- Every accidental offset produced by `from_values` has magnitude at
most 6, and magnitude 6 is already minimal in its residue class mod 12,
so the produced offset is magnitude-minimal among all congruent offsets. -/
theorem minimal_residue (a k : Int) (ha : a.natAbs ≤ 6) (h : (k - a) % 12 = 0) :
    a.natAbs ≤ k.natAbs := by
  omega

/-- Full characterisation of `Note.from_values` on valid arguments:
it succeeds, spells the requested letter, realises the requested pitch
class, and its accidental offset is within the band [-6, 5] and congruent
to the required offset mod 12. -/
theorem from_values_spec (L P : Int) (hL0 : 0 ≤ L) (hL : L < 7) (hP0 : 0 ≤ P) (hP : P < 12) :
    ∃ m, Note.from_values L P = .ok m ∧
      (m.isRest = false ∧ m.letter = L.toNat ∧ m.octave = none ∧
       m.pitch = some P ∧ m.acc.natAbs ≤ 6 ∧
       (P - (naturalPitch L.toNat + m.acc)) % 12 = 0 ∧
       m.rhythm = 0 ∧ m.dots = 0 ∧ m.triplet = false) := by
  interval_cases L <;> interval_cases P <;> exact ⟨_, rfl, by decide⟩

example : Note.from_values 2 4 = .ok ⟨false, 2, 0, none, 0, 0, false⟩ := by decide
example : Note.from_values 0 6 = .ok ⟨false, 0, -6, none, 0, 0, false⟩ := by decide
example : Note.pitch ⟨false, 6, 13, none, 0, 0, false⟩ = some 12 := by decide
example : Note.from_hard_pitch 5 false = some ⟨false, 2, 1, some 0, 0, 0, false⟩ := by decide
example : Note.from_hard_pitch 5 true = some ⟨false, 3, -1, some 0, 0, 0, false⟩ := by decide
example : Note.from_hard_pitch 57 false = some ⟨false, 5, 0, some 4, 0, 0, false⟩ := by decide
example : Note.enharmonic ⟨false, 1, 1, none, 0, 0, false⟩ none false
    = .ok ⟨false, 2, -1, none, 0, 0, false⟩ := by decide
example : Note.enharmonic ⟨false, 0, 3, some 2, 0, 0, false⟩ none false
    = .ok ⟨false, 1, 1, some 2, 0, 0, false⟩ := by decide

/-- C1: evaluation at the failing input.  The note B with thirteen sharps
is accepted by the `Note` constructor (the docstring allows unlimited
accidentals), but its `pitch` property evaluates to 12, outside the
documented 0-11 range, because the property wraps at most once; on that
note `enharmonic` (with no preference and `gross = False`) does not
return an equal-pitch-class note at all: its first `from_values` call
raises `ValueError`, contradicting the claim that every non-rest note is
rewritten pitch-class-preservingly. -/
theorem C1_enharmonic_thirteen_sharps_raises :
    Note.pitch ⟨false, 6, 13, none, 0, 0, false⟩ = some 12 ∧
    Note.enharmonic ⟨false, 6, 13, none, 0, 0, false⟩ none false =
      .error (.valueError "Pitch argument should be an integer between 0 and 11, 0 for C natural (or equivalent), 1 for C#/Db, etc.") := by
  constructor <;> rfl

/-- C2: for every letter 0-6 and every pitch class 0-11, `from_values`
succeeds, the resulting note realises exactly the requested pitch class,
and its accidental count has minimal magnitude among all accidental
offsets that spell that pitch class on that letter. -/
theorem C2_from_values_roundtrip_minimal (L P : Int)
    (hL0 : 0 ≤ L) (hL : L < 7) (hP0 : 0 ≤ P) (hP : P < 12) :
    ∃ m, Note.from_values L P = .ok m ∧ m.pitch = some P ∧
      ∀ k : Int, (naturalPitch L.toNat + k) % 12 = P → m.acc.natAbs ≤ k.natAbs := by
  obtain ⟨m, hm, -, -, -, hpitch, hacc, hcong, -⟩ := from_values_spec L P hL0 hL hP0 hP
  exact ⟨m, hm, hpitch, fun k hk => minimal_residue _ _ hacc (by omega)⟩

/-- C2 witness: the theorem applied at letter 4 (G) and pitch class 8,
where `from_values` answers G sharp. -/
theorem C2_witness :
    (0 : Int) ≤ 4 ∧ (4 : Int) < 7 ∧ (0 : Int) ≤ 8 ∧ (8 : Int) < 12 ∧
    (∃ m, Note.from_values 4 8 = .ok m ∧ m.pitch = some 8 ∧
      ∀ k : Int, (naturalPitch (4 : Int).toNat + k) % 12 = 8 → m.acc.natAbs ≤ k.natAbs) :=
  ⟨by norm_num, by norm_num, by norm_num, by norm_num,
   C2_from_values_roundtrip_minimal 4 8 (by norm_num) (by norm_num) (by norm_num) (by norm_num)⟩

/-- C3 counterexample: at hard pitch 5 (pitch class 5, a natural class,
the class of F), `from_hard_pitch` does not return the natural F
(letter 3, no accidentals): the scan matches `E natural + 1` before it
reaches F and answers E sharp. -/
theorem C3_counterexample :
    Note.from_hard_pitch 5 false ≠ some ⟨false, 3, 0, some 0, 0, 0, false⟩ ∧
    Note.from_hard_pitch 5 false = some ⟨false, 2, 1, some 0, 0, 0, false⟩ := by
  constructor
  · decide
  · rfl

/-- C3 (amended): for every integer hard pitch whose residue mod 12 is
one of 0, 2, 4, 7, 9, 11, `from_hard_pitch` (for both preference flags)
returns the natural note of that pitch class with octave `hard / 12`
(floor); for residue 5 it instead returns E sharp (or F flat when
preferring flats) with that octave. -/
theorem C3_from_hard_pitch_naturals (h : Int) (pf : Bool) :
    (h % 12 = 0 ∨ h % 12 = 2 ∨ h % 12 = 4 ∨ h % 12 = 7 ∨ h % 12 = 9 ∨ h % 12 = 11 →
      ∃ m, Note.from_hard_pitch h pf = some m ∧ m.isRest = false ∧ m.acc = 0 ∧
        naturalPitch m.letter = h % 12 ∧ m.octave = some (h / 12)) ∧
    (h % 12 = 5 →
      Note.from_hard_pitch h pf =
        some ⟨false, if pf then 3 else 2, if pf then -1 else 1, some (h / 12), 0, 0, false⟩) := by
  have hdiv : h.ediv 12 = h / 12 := rfl
  have hmod : h.emod 12 = h % 12 := rfl
  constructor
  · rintro (h5 | h5 | h5 | h5 | h5 | h5) <;>
      refine ⟨_, by simp only [Note.from_hard_pitch, hmod, hdiv, h5]; rfl, rfl, rfl, ?_, rfl⟩ <;>
      simp [naturalPitch, h5]
  · intro h5
    cases pf <;> simp only [Note.from_hard_pitch, hmod, hdiv, h5] <;> rfl

/-- C3 witness: the amended theorem applied at hard pitch 14 (residue 2,
octave 1: the natural D above middle C octave numbering) and at hard
pitch 29 (residue 5, octave 2), where the scan answers E sharp. -/
theorem C3_witness :
    (∃ m, Note.from_hard_pitch 14 false = some m ∧ m.isRest = false ∧ m.acc = 0 ∧
      naturalPitch m.letter = (14 : Int) % 12 ∧ m.octave = some ((14 : Int) / 12)) ∧
    Note.from_hard_pitch 29 false =
      some ⟨false, 2, 1, some ((29 : Int) / 12), 0, 0, false⟩ := by
  constructor
  · exact (C3_from_hard_pitch_naturals 14 false).1 (by norm_num)
  · exact (C3_from_hard_pitch_naturals 29 false).2 (by norm_num)

/-- C4: with the tuning reference at its default 440, the frequency of A
in octave 4 is exactly 440 and the frequency of A in octave 5 is exactly
880 (hard pitches 57 and 69, offsets 0 and 12 from the reference hard
pitch 57). -/
theorem C4_frequency_A4_A5 :
    Note.frequency defaultA4 ⟨false, 5, 0, some 4, 0, 0, false⟩ = some 440 ∧
    Note.frequency defaultA4 ⟨false, 5, 0, some 5, 0, 0, false⟩ = some 880 := by
  constructor
  · show some (defaultA4 * (2 : ℝ) ^ ((((9 + 4 * 12) - 57 : Int) : ℝ) / 12)) = some 440
    have h0 : ((((9 + 4 * 12) - 57 : Int) : ℝ) / 12) = 0 := by norm_num
    rw [h0, Real.rpow_zero, defaultA4]
    norm_num
  · show some (defaultA4 * (2 : ℝ) ^ ((((9 + 5 * 12) - 57 : Int) : ℝ) / 12)) = some 880
    have h1 : ((((9 + 5 * 12) - 57 : Int) : ℝ) / 12) = 1 := by norm_num
    rw [h1, Real.rpow_one, defaultA4]
    norm_num

/-- C5 counterexample: on the natural C with no octave (a non-rest note),
the `hard_pitch` property does not raise any exception: it returns the
Python value `None` (`Except.ok none`), so the query yields a value
instead of failing with a missing-octave error as the claim states. -/
theorem C5_counterexample :
    Note.hard_pitch ⟨false, 0, 0, none, 0, 0, false⟩ = .ok none := by
  rfl

/-- C5 (amended): for every non-rest note whose octave is absent, the
`hard_pitch` query raises nothing and returns the value `None`; the
missing octave is signalled by that `None` return, not by an exception. -/
theorem C5_hard_pitch_no_octave_returns_none (n : Note)
    (hrest : n.isRest = false) (hoct : n.octave = none) :
    Note.hard_pitch n = .ok none := by
  simp [Note.hard_pitch, Note.octaveProp, hrest, hoct]

/-- C5 witness: the amended theorem applied to the octave-less D flat. -/
theorem C5_witness :
    (⟨false, 1, -1, none, 0, 0, false⟩ : Note).isRest = false ∧
    (⟨false, 1, -1, none, 0, 0, false⟩ : Note).octave = none ∧
    Note.hard_pitch ⟨false, 1, -1, none, 0, 0, false⟩ = .ok none :=
  ⟨rfl, rfl, C5_hard_pitch_no_octave_returns_none _ rfl rfl⟩

/-- Interval quality (the validated `quality` string, lines 536-555).
`aug`/`dim` carry the parsed numeral suffix, 0 when the bare word was
given; the source treats a literal suffix "0" like the bare word, which
the amount function below reproduces. -/
inductive IQual where
  | per
  | min
  | maj
  | aug (n : Nat)
  | dim (n : Nat)
  deriving DecidableEq, Repr

/-- The augmentation and diminution amount (lines 594-597 and 602-606):
a missing or zero suffix counts as 1. -/
def augAmount (n : Nat) : Int := if n = 0 then 1 else n

/-- Interval base (`Interval.BASES`, line 522). -/
inductive IBase where
  | uni
  | second
  | third
  | fourth
  | fifth
  | sixth
  | seventh
  deriving DecidableEq, Repr

/-- `__BASE_INTERVALS` (lines 524-532). -/
def baseIntervals : IBase → List Int
  | .uni => [0]
  | .second => [1, 2]
  | .third => [3, 4]
  | .fourth => [5]
  | .fifth => [7]
  | .sixth => [8, 9]
  | .seventh => [10, 11]

/-- `__M_QUAL` (line 534): the bases that take major/minor qualities. -/
def mQual : IBase → Bool
  | .second => true
  | .third => true
  | .sixth => true
  | .seventh => true
  | _ => false

/-- `Interval.BASES` as an index function (used through negative Python
indexing wrapped into 0-6 by the caller). -/
def basesIdx : Nat → IBase
  | 0 => .uni
  | 1 => .second
  | 2 => .third
  | 3 => .fourth
  | 4 => .fifth
  | 5 => .sixth
  | _ => .seventh

/-- A Python `Interval` object (lines 505-569): a validated quality,
base, and nonnegative octave displacement. -/
structure Interval where
  quality : IQual
  base : IBase
  displace : Nat
  deriving DecidableEq, Repr

/-- `Interval.difference` (lines 586-607): half-step span of the
interval.  Perfect and minor take the first table entry, major the
second (the source would IndexError on a perfect base, which the
constructor forbids; the embedding defaults such dead reads to 0),
augmented adds and diminished subtracts the amount. -/
def Interval.difference (i : Interval) : Int :=
  match i.quality with
  | .per => (baseIntervals i.base).headD 0 + 12 * i.displace
  | .min => (baseIntervals i.base).headD 0 + 12 * i.displace
  | .maj => (baseIntervals i.base).getD 1 0 + 12 * i.displace
  | .aug n =>
    if mQual i.base then (baseIntervals i.base).getD 1 0 + augAmount n + 12 * i.displace
    else (baseIntervals i.base).headD 0 + augAmount n + 12 * i.displace
  | .dim n => (baseIntervals i.base).headD 0 - augAmount n + 12 * i.displace

/-- `Interval.letter_difference` (lines 609-612): the index of the base
in `BASES`. -/
def Interval.letter_difference (i : Interval) : Nat :=
  match i.base with
  | .uni => 0
  | .second => 1
  | .third => 2
  | .fourth => 3
  | .fifth => 4
  | .sixth => 5
  | .seventh => 6

/-- `__SIMPLE_INTVLS` (lines 648-661). -/
def simpleIntvls : List (IQual × IBase) :=
  [(.per, .uni), (.min, .second), (.maj, .second), (.min, .third), (.maj, .third),
   (.per, .fourth), (.aug 0, .fourth), (.per, .fifth), (.min, .sixth), (.maj, .sixth),
   (.min, .seventh), (.maj, .seventh)]

/-- The `simple` argument of `Interval.from_notes`: "a" or "d". -/
inductive Simple where
  | a
  | d
  deriving DecidableEq, Repr

/-- Python truthiness of an octave value: `None` and `0` are falsy. -/
def octTruthy : Option Int → Bool
  | none => false
  | some o => decide (o ≠ 0)

/-- The message of the strict-mode octave check of `from_notes`
(line 687). -/
def missingOctaveMsg : String :=
  "Interval cannot be determined for Notes with no octave values, unless simple parameter is set."

/-- `Interval.from_notes` (lines 663-726).  In simple mode the raw pitch
difference indexes the twelve canonical simple intervals (Python tuple
indexing: negative indices in (-12, 0) wrap from the end, i.e. `emod 12`;
out-of-range differences raise IndexError).  Strict mode first demands
*truthy* octaves on both notes, then orders the pair by hard pitch,
selects the base from the letter difference (again wrapped Python
indexing, `emod 7`), splits the hard-pitch difference into displacement
and residue, and classifies the residue against the expected values. -/
def Interval.from_notes (n1 n2 : Note) (simple : Option Simple) : Except PyErr Interval :=
  match simple with
  | some s =>
    match n1.pitch, n2.pitch with
    | some p1, some p2 =>
      let pd := match s with
        | .a => p2 - p1
        | .d => p1 - p2
      if 11 < pd ∨ pd < -12 then .error (.exception "IndexError: tuple index out of range")
      else
        match simpleIntvls.get? (pd.emod 12).toNat with
        | some qb => .ok ⟨qb.1, qb.2, 0⟩
        | none => .error (.exception "IndexError: tuple index out of range")
    | _, _ => .error (.typeError "unsupported operand: the pitch of a rest is None")
  | none =>
    if ¬ octTruthy n1.octaveProp ∨ ¬ octTruthy n2.octaveProp then
      .error (.valueError missingOctaveMsg)
    else
      match n1.pitch, n1.octaveProp, n2.pitch, n2.octaveProp with
      | some p1, some o1, some p2, some o2 =>
        let h1 := p1 + o1 * 12
        let h2 := p2 + o2 * 12
        let hiLetter : Int := if h1 < h2 then n2.letter else n1.letter
        let loLetter : Int := if h1 < h2 then n1.letter else n2.letter
        let pitchDiff0 := if h1 < h2 then h2 - h1 else h1 - h2
        let base := basesIdx ((hiLetter - loLetter).emod 7).toNat
        let displace := (pitchDiff0.ediv 12).toNat
        let pitchDiff := pitchDiff0.emod 12
        let expect := baseIntervals base
        if pitchDiff ∈ expect then
          if expect.length = 2 then
            if pitchDiff = expect.headD 0 then .ok ⟨.min, base, displace⟩
            else .ok ⟨.maj, base, displace⟩
          else .ok ⟨.per, base, displace⟩
        else
          let augB :=
            if expect.length = 2 ∧ expect.getD 1 0 < pitchDiff then true
            else decide (expect.headD 0 < pitchDiff)
          let offset :=
            if expect.length = 2 ∧ expect.getD 1 0 < pitchDiff then pitchDiff - expect.getD 1 0
            else if expect.headD 0 < pitchDiff then pitchDiff - expect.headD 0
            else expect.headD 0 - pitchDiff
          let suffix := if offset = 1 then 0 else offset.toNat
          if augB then .ok ⟨.aug suffix, base, displace⟩
          else .ok ⟨.dim suffix, base, displace⟩
      | _, _, _, _ => .error (.typeError "unreachable: truthy octaves imply pitched notes")

/-- The rhythm copy of `Note.__add__` and `__sub__` (lines 414-417): the
rhythm transfers only when truthy; dots and triplet always; the octave is
*not* copied. -/
def copyRhythm (src tgt : Note) : Note :=
  { tgt with rhythm := if src.rhythm ≠ 0 then src.rhythm else tgt.rhythm,
             dots := src.dots,
             triplet := src.triplet }

/-- The target letter of `Note.__add__` (lines 397-399): the receiver
letter advanced by the letter difference of the base, wrapped once over the
seven letters. -/
def addLetter (n : Note) (i : Interval) : Nat :=
  if 6 < n.letter + i.letter_difference then n.letter + i.letter_difference - 7
  else n.letter + i.letter_difference

/-- The target pitch of the octave-less arm of `Note.__add__`
(lines 407-411): add the half-step difference, subtract the displacement
octaves when positive, and wrap once at the top. -/
def addTargetPitch (i : Interval) (p : Int) : Int :=
  let pitch0 := p + i.difference
  let pitch1 := if 0 < (i.displace : Int) then pitch0 - (i.displace : Int) * 12 else pitch0
  if 11 < pitch1 then pitch1 - 12 else pitch1

/-- The octave-less arm of `Note.__add__` (lines 406-412): resolve the
wrapped target pitch class on the target letter with `from_values`, then
copy the rhythm fields. -/
def Note.addPC (n : Note) (i : Interval) (p : Int) (letter : Nat) : Except PyErr Note :=
  match Note.from_values (letter : Int) (addTargetPitch i p) with
  | .error e => .error e
  | .ok m => .ok (copyRhythm n m)

/-- The octave arm of `Note.__add__` (lines 401-405): resolve the target
hard pitch, nudge by one `enharmonic` call when the letter disagrees,
then copy the rhythm fields. -/
def Note.addHard (n : Note) (i : Interval) (p o : Int) (letter : Nat) : Except PyErr Note :=
  let hard := p + o * 12 + i.difference
  match Note.from_hard_pitch hard false with
  | none => .error (.typeError "unreachable: AttributeError on None")
  | some m =>
    match (if m.letter ≠ letter then m.enharmonic none false else .ok m) with
    | .error e => .error e
    | .ok m' => .ok (copyRhythm n m')

/-- `Note.__add__` (lines 390-419).  On a rest the letter property is
`None` and the addition raises TypeError.  With a *truthy* octave the
target is resolved from the hard pitch (`addHard`); with octave `None`
or `0` the pitch-class path (`addPC`) applies, producing an octave-less
note. -/
def Note.add (n : Note) (i : Interval) : Except PyErr Note :=
  if n.isRest then .error (.typeError "unsupported operand: the letter of a rest is None")
  else
    match n.pitch with
    | none => .error (.typeError "unreachable: a non-rest note has a pitch")
    | some p =>
      if octTruthy n.octaveProp then
        match n.octaveProp with
        | some o => Note.addHard n i p o (addLetter n i)
        | none => .error (.typeError "unreachable: a truthy octave is present")
      else Note.addPC n i p (addLetter n i)

/-- The result of a successful `from_values` carries no octave and
default rhythm fields. -/
theorem from_values_ok_shape (a b : Int) (m : Note) (h : Note.from_values a b = .ok m) :
    m.octave = none ∧ m.rhythm = 0 ∧ m.dots = 0 ∧ m.triplet = false ∧ m.isRest = false := by
  unfold Note.from_values at h
  split at h
  · exact absurd h (by simp)
  · split at h
    · exact absurd h (by simp)
    · rw [Except.ok.injEq] at h
      subst h
      exact ⟨rfl, rfl, rfl, rfl, rfl⟩

/-- A successful pitch-class addition returns an octave-less note. -/
theorem addPC_octave (n : Note) (i : Interval) (p : Int) (letter : Nat) (m : Note)
    (h : Note.addPC n i p letter = .ok m) : m.octave = none := by
  unfold Note.addPC at h
  rcases hfv : Note.from_values (letter : Int) (addTargetPitch i p) with e | v
  · rw [hfv] at h
    exact absurd h (by simp)
  · rw [hfv] at h
    rw [Except.ok.injEq] at h
    subst h
    exact (from_values_ok_shape _ _ _ hfv).1

example : Interval.difference ⟨.maj, .third, 0⟩ = 4 := by decide
example : Interval.difference ⟨.per, .fifth, 0⟩ = 7 := by decide
example : Interval.difference ⟨.dim 0, .fifth, 0⟩ = 6 := by decide
example : Interval.difference ⟨.aug 0, .fourth, 0⟩ = 6 := by decide
example : Note.add ⟨false, 0, 0, none, 0, 0, false⟩ ⟨.maj, .third, 0⟩
    = .ok ⟨false, 2, 0, none, 0, 0, false⟩ := by decide
example : Note.add ⟨false, 0, 0, some 4, 0, 0, false⟩ ⟨.min, .third, 0⟩
    = .ok ⟨false, 2, -1, some 4, 0, 0, false⟩ := by decide

/-- C9: a pitched note whose stored octave is the integer 0 is treated as
octave-less: strict `from_notes` raises the missing-octave `ValueError`
with it in either argument position (octave 0 is falsy in Python), and
`Note + Interval` takes the pitch-class path, so any note it returns
carries no octave. -/
theorem C9_octave_zero_treated_octaveless (n other : Note) (i : Interval)
    (hrest : n.isRest = false) (hoct : n.octave = some 0) :
    Interval.from_notes n other none = .error (.valueError missingOctaveMsg) ∧
    Interval.from_notes other n none = .error (.valueError missingOctaveMsg) ∧
    ∀ m, Note.add n i = .ok m → m.octave = none := by
  have hop : n.octaveProp = some 0 := by simp [Note.octaveProp, hrest, hoct]
  have htr : octTruthy n.octaveProp = false := by rw [hop]; rfl
  refine ⟨?_, ?_, ?_⟩
  · simp [Interval.from_notes, htr]
  · simp [Interval.from_notes, htr]
  · intro m hm
    unfold Note.add at hm
    rw [if_neg (by simp [hrest])] at hm
    rcases hp : n.pitch with - | p
    · rw [hp] at hm
      exact absurd hm (by simp)
    · rw [hp, htr] at hm
      simp only [Bool.false_eq_true, if_false] at hm
      exact addPC_octave n i p _ m hm

/-- C9 witness: the theorem applied to C at octave 0, D at octave 4, and
a major third. -/
theorem C9_witness :
    Interval.from_notes ⟨false, 0, 0, some 0, 0, 0, false⟩ ⟨false, 1, 0, some 4, 0, 0, false⟩ none
      = .error (.valueError missingOctaveMsg) ∧
    Interval.from_notes ⟨false, 1, 0, some 4, 0, 0, false⟩ ⟨false, 0, 0, some 0, 0, 0, false⟩ none
      = .error (.valueError missingOctaveMsg) ∧
    ∀ m, Note.add ⟨false, 0, 0, some 0, 0, 0, false⟩ ⟨.maj, .third, 0⟩ = .ok m → m.octave = none :=
  C9_octave_zero_treated_octaveless
    ⟨false, 0, 0, some 0, 0, 0, false⟩ ⟨false, 1, 0, some 4, 0, 0, false⟩ ⟨.maj, .third, 0⟩ rfl rfl

/-- A value of the `MODES` dictionary (lines 728-759): either a raw step
pattern (a tuple of semitone steps) or the name of a parent pattern with
a trailing rotation digit. -/
inductive ModeVal where
  | pattern (steps : List Int)
  | aliasOf (s : String)
  deriving DecidableEq, Repr

/-- The `MODES` dictionary (lines 728-759), in source order. -/
def MODES : List (String × ModeVal) :=
  [("ionian", .pattern [2, 2, 1, 2, 2, 2, 1]),
   ("major", .aliasOf "ionian1"),
   ("dorian", .aliasOf "ionian2"),
   ("phrygian", .aliasOf "ionian3"),
   ("lydian", .aliasOf "ionian4"),
   ("mixolydian", .aliasOf "ionian5"),
   ("aeolian", .aliasOf "ionian6"),
   ("minor", .aliasOf "ionian6"),
   ("locrian", .aliasOf "ionian7"),
   ("major pentatonic", .pattern [2, 2, 3, 2, 3]),
   ("minor pentatonic", .aliasOf "major pentatonic5"),
   ("major blues", .pattern [2, 1, 1, 3, 2, 3]),
   ("minor blues", .aliasOf "major blues6"),
   ("blues", .aliasOf "major blues6"),
   ("harmonic minor", .pattern [2, 1, 2, 2, 1, 3]),
   ("melodic minor", .pattern [2, 1, 2, 2, 2, 2, 1]),
   ("dorian flat 2", .aliasOf "melodic minor2"),
   ("lydian sharp 5", .aliasOf "melodic minor3"),
   ("lydian dominant", .aliasOf "melodic minor4"),
   ("mixolydian flat 6", .aliasOf "melodic minor5"),
   ("locrian sharp 2", .aliasOf "melodic minor6"),
   ("super locrian", .aliasOf "melodic minor7"),
   ("altered", .aliasOf "melodic minor7"),
   ("chromatic", .pattern [1, 1, 1, 1, 1, 1, 1, 1, 1, 1, 1]),
   ("whole tone", .pattern [2, 2, 2, 2, 2]),
   ("whole-half diminished", .pattern [2, 1, 2, 1, 2, 1, 2, 1]),
   ("half-whole diminished", .pattern [1, 2, 1, 2, 1, 2, 1, 2]),
   ("whole-half octatonic", .aliasOf "whole-half diminished1"),
   ("half-whole octatonic", .aliasOf "half-whole diminished1"),
   ("augmented", .pattern [3, 1, 3, 1, 3, 1])]

/-- Dictionary lookup in `MODES`. -/
def modesGet (s : String) : Option ModeVal := MODES.lookup s

/-- `MODE_LETTER_SPELLINGS` (lines 761-768). -/
def MODE_LETTER_SPELLINGS : List (String × List Int) :=
  [("ionian", [1, 1, 1, 1, 1, 1, 1]),
   ("major pentatonic", [1, 1, 2, 1, 2]),
   ("major blues", [1, 0, 1, 2, 1, 2]),
   ("harmonic minor", [1, 1, 1, 1, 1, 1, 1]),
   ("melodic minor", [1, 1, 1, 1, 1, 1, 1]),
   ("augmented", [2, 0, 2, 0, 2, 1])]

/-- Dictionary lookup in `MODE_LETTER_SPELLINGS`. -/
def letterSpellingsGet (s : String) : Option (List Int) := MODE_LETTER_SPELLINGS.lookup s

/-- The base (non-alias) entries of `MODES`, in dictionary order. -/
def basePatterns : List (String × List Int) :=
  MODES.filterMap (fun p =>
    match p.2 with
    | .pattern l => some (p.1, l)
    | .aliasOf _ => none)

/-- A Python `Mode` object (lines 770-795): a root note and a registered
mode name. -/
structure Mode where
  root : Note
  mode : String
  deriving DecidableEq, Repr

/-- Whether a note spells one of the cross-natural names B#, Cb, E#, Fb
(the tuple at line 864). -/
def isGrossName (n : Note) : Bool :=
  (n.letter == 6 && n.acc == 1) || (n.letter == 0 && n.acc == -1) ||
  (n.letter == 2 && n.acc == 1) || (n.letter == 3 && n.acc == -1)

/-- Conditional `enharmonic` call with default arguments, used by the
spelling walker. -/
def enhIf (c : Bool) (nt : Note) : Except PyErr Note :=
  if c then nt.enharmonic none false else .ok nt

/-- The `spelling` walk when a letter-step table is registered for the
parent pattern (lines 824-842): each of the `len(parent)` loop
iterations first wraps the rotation index, stops once `n` reaches the
pattern length, then advances the pitch by `parent[index]` and the
letter by the letter-step entry, wraps both, and resolves with
`from_values`. -/
def mode_walkA (parent letters : List Int) (plen : Nat) :
    List Int → Nat → Nat → Int → Int → List Note → Except PyErr (List Note)
  | [], _, _, _, _, acc => .ok acc.reverse
  | _ :: rest, index, n, pitch, letter, acc =>
    let index := if index = plen then index - plen else index
    if n = plen then .ok acc.reverse
    else
      let pitch := pitch + parent.getD index 0
      let letter := letter + letters.getD index 0
      let pitch := if pitch < 0 then pitch + 12 else if 11 < pitch then pitch - 12 else pitch
      let letter := if letter < 0 then letter + 7 else if 6 < letter then letter - 7 else letter
      match Note.from_values letter pitch with
      | .error e => .error e
      | .ok nt => mode_walkA parent letters plen rest (index + 1) (n + 1) pitch letter (nt :: acc)

/-- The `spelling` walk without a letter-step table (lines 843-878):
advance one letter per step, resolve with `from_values`, then simplify
spellings longer than two characters, simplify the cross-natural names,
and keep the scale on the sharp-only or flat-only convention carried by
the `flats`/`sharps` flags (seeded from the accidental of the root, lines
844-845), converting and setting the flags exactly as the source does. -/
def mode_walkB (parent : List Int) (plen : Nat) :
    List Int → Nat → Nat → Int → Int → Bool → Bool → List Note → Except PyErr (List Note)
  | [], _, _, _, _, _, _, acc => .ok acc.reverse
  | _ :: rest, index, n, pitch, letter, flats, sharps, acc =>
    let index := if index = plen then index - plen else index
    if n = plen then .ok acc.reverse
    else
      let pitch := pitch + parent.getD index 0
      let letter := letter + 1
      let pitch := if pitch < 0 then pitch + 12 else if 11 < pitch then pitch - 12 else pitch
      let letter := if letter < 0 then letter + 7 else if 6 < letter then letter - 7 else letter
      match Note.from_values letter pitch with
      | .error e => .error e
      | .ok nt0 =>
        match enhIf (decide (2 < nt0.nameLen)) nt0 with
        | .error e => .error e
        | .ok nt1 =>
          match enhIf (isGrossName nt1) nt1 with
          | .error e => .error e
          | .ok nt2 =>
            let hashHere := decide (0 < nt2.acc)
            match enhIf (hashHere && flats) nt2 with
            | .error e => .error e
            | .ok nt3 =>
              let sharps := if hashHere && !flats && !sharps then true else sharps
              let bHere := decide (nt3.acc < 0)
              match enhIf (bHere && sharps) nt3 with
              | .error e => .error e
              | .ok nt4 =>
                let flats := if bHere && !flats && !sharps then true else flats
                mode_walkB parent plen rest (index + 1) (n + 1) pitch letter flats sharps
                  (nt4 :: acc)

/-- `Mode.spelling` (lines 802-880): resolve the alias (the value minus
its final character names the parent, the final digit minus one is the
rotation offset), fetch the parent pattern, and run the walker that
matches whether a letter-step table is registered, starting from the
pitch, letter and accidental convention of the root. -/
def Mode.spelling (m : Mode) : Except PyErr (List Note) :=
  match modesGet m.mode with
  | none => .error (.keyError "Mode not found.  View the MODES dictionary to see/add modes.")
  | some v =>
    let pr : String × Int :=
      match v with
      | .pattern _ => (m.mode, 0)
      | .aliasOf s => (s.dropRight 1, ((s.back.toNat : Int) - 48) - 1)
    match modesGet pr.1 with
    | none => .error (.keyError "KeyError: parent pattern name")
    | some (.aliasOf _) => .error (.valueError "Invalid Mode pattern. (Check MODES dictionary)")
    | some (.pattern parent) =>
      match m.root.pitch with
      | none => .error (.typeError "unsupported operand: the pitch of a rest is None")
      | some rp =>
        match letterSpellingsGet pr.1 with
        | some letters =>
          mode_walkA parent letters parent.length parent pr.2.toNat 1 rp (m.root.letter : Int)
            [m.root]
        | none =>
          mode_walkB parent parent.length parent pr.2.toNat 1 rp (m.root.letter : Int)
            (decide (m.root.acc < 0)) (decide (0 < m.root.acc)) [m.root]

example : Mode.spelling ⟨⟨false, 4, 1, none, 0, 0, false⟩, "minor"⟩ =
    .ok [⟨false, 4, 1, none, 0, 0, false⟩, ⟨false, 5, 1, none, 0, 0, false⟩,
         ⟨false, 6, 0, none, 0, 0, false⟩, ⟨false, 0, 1, none, 0, 0, false⟩,
         ⟨false, 1, 1, none, 0, 0, false⟩, ⟨false, 2, 0, none, 0, 0, false⟩,
         ⟨false, 3, 1, none, 0, 0, false⟩] := by decide

example : Mode.spelling ⟨⟨false, 0, 0, none, 0, 0, false⟩, "half-whole diminished"⟩ =
    .ok [⟨false, 0, 0, none, 0, 0, false⟩, ⟨false, 1, -1, none, 0, 0, false⟩,
         ⟨false, 2, -1, none, 0, 0, false⟩, ⟨false, 2, 0, none, 0, 0, false⟩,
         ⟨false, 4, -1, none, 0, 0, false⟩, ⟨false, 4, 0, none, 0, 0, false⟩,
         ⟨false, 5, 0, none, 0, 0, false⟩, ⟨false, 6, -1, none, 0, 0, false⟩] := by decide

/-- C6: the spelling of `Mode(root=C, "major")` is exactly the seven
notes C, D, E, F, G, A, B with the root first, and the spelling of
`Mode(root=D, "dorian")` is exactly D, E, F, G, A, B, C. -/
theorem C6_major_and_dorian_spellings :
    Mode.spelling ⟨⟨false, 0, 0, none, 0, 0, false⟩, "major"⟩ =
      .ok [⟨false, 0, 0, none, 0, 0, false⟩, ⟨false, 1, 0, none, 0, 0, false⟩,
           ⟨false, 2, 0, none, 0, 0, false⟩, ⟨false, 3, 0, none, 0, 0, false⟩,
           ⟨false, 4, 0, none, 0, 0, false⟩, ⟨false, 5, 0, none, 0, 0, false⟩,
           ⟨false, 6, 0, none, 0, 0, false⟩] ∧
    Mode.spelling ⟨⟨false, 1, 0, none, 0, 0, false⟩, "dorian"⟩ =
      .ok [⟨false, 1, 0, none, 0, 0, false⟩, ⟨false, 2, 0, none, 0, 0, false⟩,
           ⟨false, 3, 0, none, 0, 0, false⟩, ⟨false, 4, 0, none, 0, 0, false⟩,
           ⟨false, 5, 0, none, 0, 0, false⟩, ⟨false, 6, 0, none, 0, 0, false⟩,
           ⟨false, 0, 0, none, 0, 0, false⟩] := by
  constructor <;> rfl

/-- C8: evaluation of the step sums of every base pattern registered in
`MODES`, in dictionary order.  Three base patterns do *not* sum to 12:
"harmonic minor" sums to 11 (its closing step back to the root is
missing), "chromatic" sums to 11 (eleven unit steps instead of twelve),
and "whole tone" sums to 10 (five whole steps instead of six); the other
seven sum to 12 as the claim states. -/
theorem C8_base_pattern_sums :
    basePatterns.map (fun p => (p.1, p.2.sum)) =
      [("ionian", 12), ("major pentatonic", 12), ("major blues", 12),
       ("harmonic minor", 11), ("melodic minor", 12), ("chromatic", 11),
       ("whole tone", 10), ("whole-half diminished", 12), ("half-whole diminished", 12),
       ("augmented", 12)] := by
  rfl

/-- The `EXTENSIONS` dictionary (lines 892-911): extension tokens and
their intervals. -/
def EXTENSIONS : List (String × Interval) :=
  [("b9", ⟨.min, .second, 0⟩), ("addb9", ⟨.min, .second, 0⟩), ("2", ⟨.maj, .second, 0⟩),
   ("9", ⟨.maj, .second, 0⟩), ("add9", ⟨.maj, .second, 0⟩), ("#9", ⟨.aug 0, .second, 0⟩),
   ("add4", ⟨.per, .fourth, 0⟩), ("add11", ⟨.per, .fourth, 0⟩), ("#11", ⟨.aug 0, .fourth, 0⟩),
   ("b5", ⟨.dim 0, .fifth, 0⟩), ("#5", ⟨.aug 0, .fifth, 0⟩), ("b6", ⟨.min, .sixth, 0⟩),
   ("b13", ⟨.min, .sixth, 0⟩), ("6", ⟨.maj, .sixth, 0⟩), ("13", ⟨.maj, .sixth, 0⟩),
   ("dim7", ⟨.dim 0, .seventh, 0⟩), ("7", ⟨.min, .seventh, 0⟩), ("maj7", ⟨.maj, .seventh, 0⟩)]

/-- Lookup in `EXTENSIONS`. -/
def extLookup (s : String) : Option Interval := EXTENSIONS.lookup s

/-- The `QUALITIES` tuple (lines 913-920). -/
def QUALITIES : List String := ["maj", "min", "aug", "dim", "sus", "5"]

/-- Python dict assignment on an insertion-ordered dictionary: an
existing key keeps its position and gets the new value, a new key is
appended. -/
def upsert (k : String) (v : Interval) : List (String × Interval) → List (String × Interval)
  | [] => [(k, v)]
  | (k', v') :: rest => if k' = k then (k, v) :: rest else (k', v') :: upsert k v rest

/-- The triad intervals selected by the chord quality
(lines 950-967): an optional third and a fifth. -/
def triadOf (q : String) : Option Interval × Interval :=
  if q = "maj" then (some ⟨.maj, .third, 0⟩, ⟨.per, .fifth, 0⟩)
  else if q = "min" then (some ⟨.min, .third, 0⟩, ⟨.per, .fifth, 0⟩)
  else if q = "aug" then (some ⟨.maj, .third, 0⟩, ⟨.aug 0, .fifth, 0⟩)
  else if q = "dim" then (some ⟨.min, .third, 0⟩, ⟨.dim 0, .fifth, 0⟩)
  else if q = "sus" then (some ⟨.per, .fourth, 0⟩, ⟨.per, .fifth, 0⟩)
  else (none, ⟨.per, .fifth, 0⟩)

/-- The chord-tone dictionary built by `Chord.__init__` (lines 947-1012):
the triad, the 13th/9th/7th blocks with their implied tones (a 13
forces a 9 and a 7; an explicit 9 token cancels the implied 9; a needed
7th on a diminished quality is a major sixth), the 2nd block, the fifth
replacements (both `b5` and `#5` apply when present, in that order), and
the final loop adding the seven add-style tokens under their own keys.
The interval literals are the `EXTENSIONS` values of the tokens the
source looks up.  The blocks are named `dictBase`, `dict13`, `dict9`,
`dict7`, `dict2`, `dict5` and `dictAdds` below and composed by
`buildDictionary`. -/
def dictBase (q : String) : List (String × Interval) :=
  match (triadOf q).1 with
  | some third => [("third", third), ("fifth", (triadOf q).2)]
  | none => [("fifth", (triadOf q).2)]

/-- The 13th block (lines 972-979): the first matching token sets the
13th interval and marks both the 7th and the 9th as implied. -/
def dict13 (exts : List String) (d : List (String × Interval)) :
    List (String × Interval) × Bool × Bool :=
  if exts.contains "13" then (upsert "13th" ⟨.maj, .sixth, 0⟩ d, true, true)
  else if exts.contains "b13" then (upsert "13th" ⟨.min, .sixth, 0⟩ d, true, true)
  else (d, false, false)

/-- The 9th block with its for-else (lines 980-988): an explicit 9 token
sets the 9th and marks the 7th implied; otherwise a pending implied 9th
is added and the prior need-7 flag is kept. -/
def dict9 (exts : List String) (d : List (String × Interval)) (need7 need9 : Bool) :
    List (String × Interval) × Bool :=
  if exts.contains "9" then (upsert "9th" ⟨.maj, .second, 0⟩ d, true)
  else if exts.contains "#9" then (upsert "9th" ⟨.aug 0, .second, 0⟩ d, true)
  else if exts.contains "b9" then (upsert "9th" ⟨.min, .second, 0⟩ d, true)
  else ((if need9 then upsert "9th" ⟨.maj, .second, 0⟩ d else d), need7)

/-- The 7th block with its for-else (lines 990-1000): an explicit 7
token sets the 7th; otherwise an implied 7th is a major sixth on a
diminished quality and a minor seventh on everything else. -/
def dict7 (q : String) (exts : List String) (d : List (String × Interval)) (need7 : Bool) :
    List (String × Interval) :=
  if exts.contains "7" then upsert "7th" ⟨.min, .seventh, 0⟩ d
  else if exts.contains "maj7" then upsert "7th" ⟨.maj, .seventh, 0⟩ d
  else if exts.contains "dim7" then upsert "7th" ⟨.dim 0, .seventh, 0⟩ d
  else if need7 then
    (if q = "dim" then upsert "7th" ⟨.maj, .sixth, 0⟩ d
     else upsert "7th" ⟨.min, .seventh, 0⟩ d)
  else d

/-- The 2nd block (lines 1001-1004). -/
def dict2 (exts : List String) (d : List (String × Interval)) : List (String × Interval) :=
  if exts.contains "2" then upsert "2nd" ⟨.maj, .second, 0⟩ d
  else if exts.contains "addb9" then upsert "2nd" ⟨.min, .second, 0⟩ d
  else if exts.contains "add9" then upsert "2nd" ⟨.maj, .second, 0⟩ d
  else d

/-- The fifth replacements (lines 1006-1008): no break, so both tokens
apply in order when both are present. -/
def dict5 (exts : List String) (d : List (String × Interval)) : List (String × Interval) :=
  let d := if exts.contains "b5" then upsert "fifth" ⟨.dim 0, .fifth, 0⟩ d else d
  if exts.contains "#5" then upsert "fifth" ⟨.aug 0, .fifth, 0⟩ d else d

/-- The final add loop (lines 1010-1012): each present token of the
seven-token tuple is added under its own key, in tuple order. -/
def dictAdds (exts : List String) (d : List (String × Interval)) : List (String × Interval) :=
  let d := if exts.contains "addb9" then upsert "addb9" ⟨.min, .second, 0⟩ d else d
  let d := if exts.contains "add9" then upsert "add9" ⟨.maj, .second, 0⟩ d else d
  let d := if exts.contains "2" then upsert "2" ⟨.maj, .second, 0⟩ d else d
  let d := if exts.contains "add4" then upsert "add4" ⟨.per, .fourth, 0⟩ d else d
  let d := if exts.contains "#11" then upsert "#11" ⟨.aug 0, .fourth, 0⟩ d else d
  let d := if exts.contains "b6" then upsert "b6" ⟨.min, .sixth, 0⟩ d else d
  if exts.contains "6" then upsert "6" ⟨.maj, .sixth, 0⟩ d else d

def buildDictionary (q : String) (exts : List String) : List (String × Interval) :=
  let s13 := dict13 exts (dictBase q)
  let s9 := dict9 exts s13.1 s13.2.1 s13.2.2
  dictAdds exts (dict5 exts (dict2 exts (dict7 q exts s9.1 s9.2)))

/-- `Note.sorter_from_root` (lines 379-387): a tone below the pitch
class of the root is lifted an octave so the sort ascends from the root.
Pitches are present for every note this is applied to (`__init__` would
already have raised on a rest). -/
def Note.sorter_from_root (root n : Note) : Int :=
  let np := (n.pitch).getD 0
  let rp := (root.pitch).getD 0
  if np < rp then np + 12 else np

/-- Stable insertion into a key-sorted list: the inserted element goes
before the first element whose key is not smaller, which preserves the
original order of equal keys (the element being inserted comes earlier
in the original list than everything already inserted). -/
def insertKeyed (key : Note → Int) (x : Note) : List Note → List Note
  | [] => [x]
  | y :: ys => if key y < key x then y :: insertKeyed key x ys else x :: y :: ys

/-- Stable sort by key; `list.sort(key=...)` in Python is a stable sort,
and a stable sort by key is unique, so this insertion sort computes the
same list. -/
def isortKeyed (key : Note → Int) : List Note → List Note
  | [] => []
  | x :: xs => insertKeyed key x (isortKeyed key xs)

/-- The deduplication loop of `Chord.__init__` (lines 1021-1029): a
CPython `for` over the list it mutates.  The iterator holds a bare
index: it yields `l[i]` and stops once `i` reaches the current length;
`notes.remove(note)` removes the current element (`Note` objects compare
by identity and each object appears once), which shifts the remainder
down by one so the element after a removal is skipped.  `first` skips
the root at index 0; `prev` is the previously yielded note.  The fuel is
the initial length plus one, which the loop cannot exhaust since the
index grows by one per step. -/
def dedupGo : Nat → List Note → Nat → Note → Bool → List Note
  | 0, l, _, _, _ => l
  | fuel + 1, l, i, prev, first =>
    match l[i]? with
    | none => l
    | some note =>
      if first then dedupGo fuel l (i + 1) prev false
      else if prev.pitch = note.pitch then dedupGo fuel (l.eraseIdx i) (i + 1) note false
      else dedupGo fuel l (i + 1) note false

/-- The `for intvl in dictionary` loop of `__init__` (lines 1015-1017):
one `root + interval` per dictionary entry, in insertion order. -/
def tonesOf (root : Note) : List (String × Interval) → Except PyErr (List Note)
  | [] => .ok []
  | (_, i) :: rest =>
    match Note.add root i with
    | .error e => .error e
    | .ok nt =>
      match tonesOf root rest with
      | .error e => .error e
      | .ok ts => .ok (nt :: ts)

/-- A Python `Chord` object (lines 922-1058): the stored constructor
arguments, the tone dictionary, and the final notes tuple. -/
structure Chord where
  root : Note
  quality : String
  extensions : List String
  dictionary : List (String × Interval)
  notes : List Note
  deriving DecidableEq, Repr

/-- `Chord.__init__` (lines 932-1033): validate the quality and the
extension tokens, build the tone dictionary, prepend the root to the
tones, stable-sort by `sorter_from_root`, and run the deduplication
loop seeded with `previous_note = root` and `first = True`. -/
def chordInit (root : Note) (quality : String) (extensions : List String) :
    Except PyErr Chord :=
  if ¬ QUALITIES.contains quality then
    .error (.valueError "Invalid chord quality. (use maj, min, aug, dim, sus, or 5)")
  else if ¬ extensions.all (fun e => (extLookup e).isSome) then
    .error (.valueError "Invalid extension.  See EXTENSIONS dictionary.")
  else
    let dictionary := buildDictionary quality extensions
    match tonesOf root dictionary with
    | .error e => .error e
    | .ok tones =>
      let sorted := isortKeyed (Note.sorter_from_root root) (root :: tones)
      let deduped := dedupGo (sorted.length + 1) sorted 0 root true
      .ok ⟨root, quality, extensions, dictionary, deduped⟩

/-- The tone intervals the chord builder installs: no octave
displacement and a half-step difference strictly between the unison and
the octave. -/
@[reducible] def goodIntvl (i : Interval) : Prop :=
  i.displace = 0 ∧ 1 ≤ i.difference ∧ i.difference ≤ 11

/-- Every member of an upserted dictionary is the new pair or an old
member. -/
theorem mem_upsert {k : String} {v : Interval} {d : List (String × Interval)}
    {x : String × Interval} (hx : x ∈ upsert k v d) : x = (k, v) ∨ x ∈ d := by
  induction d with
  | nil => simpa [upsert] using hx
  | cons y tl ih =>
    unfold upsert at hx
    split at hx
    · rcases List.mem_cons.mp hx with h | h
      · exact Or.inl h
      · exact Or.inr (List.mem_cons_of_mem _ h)
    · rcases List.mem_cons.mp hx with h | h
      · exact Or.inr (by rw [h]; exact List.mem_cons_self _ _)
      · rcases ih h with h' | h'
        · exact Or.inl h'
        · exact Or.inr (List.mem_cons_of_mem _ h')

/-- Upserting a good interval preserves dictionary goodness. -/
theorem upsert_good {k : String} {v : Interval} {d : List (String × Interval)}
    (hv : goodIntvl v) (hd : ∀ kv ∈ d, goodIntvl kv.2) :
    ∀ kv ∈ upsert k v d, goodIntvl kv.2 := by
  intro kv hkv
  rcases mem_upsert hkv with h | h
  · rw [h]
    exact hv
  · exact hd kv h

theorem dictBase_good (q : String) : ∀ kv ∈ dictBase q, goodIntvl kv.2 := by
  unfold dictBase triadOf
  split_ifs <;> decide

theorem dict13_good (exts : List String) (d : List (String × Interval))
    (hd : ∀ kv ∈ d, goodIntvl kv.2) : ∀ kv ∈ (dict13 exts d).1, goodIntvl kv.2 := by
  unfold dict13
  split_ifs <;> dsimp only <;> first
    | exact upsert_good (by decide) hd
    | exact hd

theorem dict9_good (exts : List String) (d : List (String × Interval)) (n7 n9 : Bool)
    (hd : ∀ kv ∈ d, goodIntvl kv.2) : ∀ kv ∈ (dict9 exts d n7 n9).1, goodIntvl kv.2 := by
  unfold dict9
  split_ifs <;> dsimp only <;> first
    | exact upsert_good (by decide) hd
    | exact hd

theorem dict7_good (q : String) (exts : List String) (d : List (String × Interval)) (n7 : Bool)
    (hd : ∀ kv ∈ d, goodIntvl kv.2) : ∀ kv ∈ dict7 q exts d n7, goodIntvl kv.2 := by
  unfold dict7
  split_ifs <;> first
    | exact upsert_good (by decide) hd
    | exact hd

theorem dict2_good (exts : List String) (d : List (String × Interval))
    (hd : ∀ kv ∈ d, goodIntvl kv.2) : ∀ kv ∈ dict2 exts d, goodIntvl kv.2 := by
  unfold dict2
  split_ifs <;> first
    | exact upsert_good (by decide) hd
    | exact hd

theorem dict5_good (exts : List String) (d : List (String × Interval))
    (hd : ∀ kv ∈ d, goodIntvl kv.2) : ∀ kv ∈ dict5 exts d, goodIntvl kv.2 := by
  unfold dict5
  split_ifs <;> first
    | exact upsert_good (by decide) (upsert_good (by decide) hd)
    | exact upsert_good (by decide) hd
    | exact hd

theorem dictAdds_good (exts : List String) (d : List (String × Interval))
    (hd : ∀ kv ∈ d, goodIntvl kv.2) : ∀ kv ∈ dictAdds exts d, goodIntvl kv.2 := by
  unfold dictAdds
  split_ifs <;>
    repeat
      first
      | exact hd
      | refine upsert_good (by decide) ?_

/-- Every interval in the built chord-tone dictionary has displacement 0
and a difference in 1..11: no chord tone lands on the root pitch class. -/
theorem buildDictionary_good (q : String) (exts : List String) :
    ∀ kv ∈ buildDictionary q exts, goodIntvl kv.2 := by
  unfold buildDictionary
  exact dictAdds_good _ _ (dict5_good _ _ (dict2_good _ _ (dict7_good _ _ _ _
    (dict9_good _ _ _ _ (dict13_good _ _ (dictBase_good q))))))

/-- A non-rest note with a falsy octave adds via the pitch-class arm. -/
theorem add_unfold_pc (n : Note) (i : Interval) (p : Int)
    (hrest : n.isRest = false) (hp : n.pitch = some p)
    (htr : octTruthy n.octaveProp = false) :
    Note.add n i = Note.addPC n i p (addLetter n i) := by
  unfold Note.add
  rw [if_neg (by simp [hrest]), hp, htr]
  rfl

/-- A non-rest note with a truthy octave adds via the hard-pitch arm. -/
theorem add_unfold_hard (n : Note) (i : Interval) (p o : Int)
    (hrest : n.isRest = false) (hp : n.pitch = some p)
    (hoct : n.octaveProp = some o) (ho : o ≠ 0) :
    Note.add n i = Note.addHard n i p o (addLetter n i) := by
  unfold Note.add
  rw [if_neg (by simp [hrest]), hp, hoct]
  rw [show octTruthy (some o) = true by simp [octTruthy, ho]]
  rfl

/-- The letter difference of any base is at most six. -/
theorem letter_difference_le (i : Interval) : i.letter_difference ≤ 6 := by
  unfold Interval.letter_difference
  split <;> omega

/-- The target letter of an addition stays within the seven letters. -/
theorem addLetter_lt (n : Note) (i : Interval) (h : n.letter < 7) : addLetter n i < 7 := by
  have := letter_difference_le i
  unfold addLetter
  split <;> omega

/-- With no displacement, the target pitch of the pitch-class arm is the
target pitch class: the single wrap is a full reduction because the
inputs are bounded. -/
theorem addTargetPitch_eq (i : Interval) (p : Int)
    (h0 : 0 ≤ p) (h1 : p < 12) (hdis : i.displace = 0)
    (hd1 : 1 ≤ i.difference) (hd2 : i.difference ≤ 11) :
    addTargetPitch i p = (p + i.difference) % 12 := by
  unfold addTargetPitch
  rw [hdis]
  norm_num
  omega

/-- The rhythm copy leaves the pitch of the target unchanged. -/
theorem copyRhythm_pitch (s t : Note) : (copyRhythm s t).pitch = t.pitch := rfl

/-- The rhythm copy leaves the octave of the target unchanged. -/
theorem copyRhythm_octave (s t : Note) : (copyRhythm s t).octave = t.octave := rfl

/-- Characterisation of `from_hard_pitch` in its sharp-preferring form
(the only form `__add__` uses): for every hard pitch it returns a
non-rest natural or single-sharp note of the residue pitch class mod 12
with octave `hard / 12`.  (With `prefer_flat` the residue-5 answer Fb
has pitch class 4, so the pitch-class property would fail there.) -/
theorem fhp_spec (h : Int) :
    ∃ m, Note.from_hard_pitch h false = some m ∧ m.isRest = false ∧ m.letter < 7 ∧
      (m.acc = 0 ∨ m.acc = 1) ∧ m.pitch = some (h % 12) ∧ m.octave = some (h / 12) := by
  have h0 : 0 ≤ h % 12 := Int.emod_nonneg h (by norm_num)
  have h1 : h % 12 < 12 := Int.emod_lt_of_pos h (by norm_num)
  rw [show Note.from_hard_pitch h false
      = fhp_scan (h % 12) (h / 12) false [0, 1, 2, 3, 4, 5, 6] from rfl]
  set r := h % 12 with hr
  clear hr
  interval_cases r <;>
    exact ⟨_, rfl, rfl, by norm_num, by norm_num, rfl, rfl⟩

/-- `enharmonic` with default arguments preserves the pitch of any
well-formed natural or single-sharp note. -/
theorem enh_pitch_small (n : Note) (q : Int)
    (hrest : n.isRest = false) (hlt : n.letter < 7) (hacc : n.acc = 0 ∨ n.acc = 1)
    (hp : n.pitch = some q) :
    ∃ m, Note.enharmonic n none false = .ok m ∧ m.pitch = some q ∧ m.isRest = false := by
  obtain ⟨ir, lt, ac, oc, rh, dt, tp⟩ := n
  simp only at hrest hlt hacc hp
  subst hrest
  rcases hacc with h | h <;> subst h <;> interval_cases lt <;>
    exact ⟨_, rfl, by rw [← hp]; try rfl, rfl⟩

/-- The pitch-class arm of the addition succeeds on a tone interval and
realises the target pitch class. -/
theorem addPC_pitch (n : Note) (i : Interval) (p : Int) (letter : Nat)
    (hlt : letter < 7) (h0 : 0 ≤ p) (h1 : p < 12) (hdis : i.displace = 0)
    (hd1 : 1 ≤ i.difference) (hd2 : i.difference ≤ 11) :
    ∃ m, Note.addPC n i p letter = .ok m ∧ m.pitch = some ((p + i.difference) % 12) ∧
      m.isRest = false := by
  unfold Note.addPC
  rw [addTargetPitch_eq i p h0 h1 hdis hd1 hd2]
  have hq0 : 0 ≤ (p + i.difference) % 12 := Int.emod_nonneg _ (by norm_num)
  have hq1 : (p + i.difference) % 12 < 12 := Int.emod_lt_of_pos _ (by norm_num)
  obtain ⟨m, hm, hrest, -, -, hpitch, -⟩ :=
    from_values_spec (letter : Int) ((p + i.difference) % 12)
      (by positivity) (by exact_mod_cast hlt) hq0 hq1
  rw [hm]
  exact ⟨copyRhythm n m, rfl, by rw [copyRhythm_pitch, hpitch], hrest⟩

/-- The hard-pitch arm of the addition succeeds and realises the target
pitch class mod 12. -/
theorem addHard_pitch (n : Note) (i : Interval) (p o : Int) (letter : Nat) :
    ∃ m, Note.addHard n i p o letter = .ok m ∧
      m.pitch = some ((p + o * 12 + i.difference) % 12) ∧ m.isRest = false := by
  unfold Note.addHard
  dsimp only
  obtain ⟨m0, hm0, hm0rest, hm0lt, hm0acc, hm0p, -⟩ := fhp_spec (p + o * 12 + i.difference)
  rw [hm0]
  dsimp only
  by_cases hl : m0.letter ≠ letter
  · rw [if_pos hl]
    obtain ⟨m1, hm1, hm1p, hm1rest⟩ := enh_pitch_small m0 _ hm0rest hm0lt hm0acc hm0p
    rw [hm1]
    exact ⟨copyRhythm n m1, rfl, by rw [copyRhythm_pitch, hm1p], hm1rest⟩
  · rw [if_neg hl]
    exact ⟨copyRhythm n m0, rfl, by rw [copyRhythm_pitch, hm0p], hm0rest⟩

/-- `Note + Interval` on a well-formed pitched root and a tone interval
succeeds and realises the pitch class `(p + difference) mod 12`, whether
or not the root carries an octave. -/
theorem add_pitch (n : Note) (i : Interval) (p : Int)
    (hp : n.pitch = some p) (h0 : 0 ≤ p) (h1 : p < 12) (hlt : n.letter < 7)
    (hdis : i.displace = 0) (hd1 : 1 ≤ i.difference) (hd2 : i.difference ≤ 11) :
    ∃ m, Note.add n i = .ok m ∧ m.pitch = some ((p + i.difference) % 12) ∧
      m.isRest = false := by
  have hrest : n.isRest = false := by
    by_contra hr
    rw [Bool.not_eq_false] at hr
    simp [Note.pitch, hr] at hp
  have hlt' := addLetter_lt n i hlt
  rcases hoct : n.octaveProp with - | o
  · rw [add_unfold_pc n i p hrest hp (by rw [hoct]; rfl)]
    exact addPC_pitch n i p _ hlt' h0 h1 hdis hd1 hd2
  · by_cases ho : o = 0
    · subst ho
      rw [add_unfold_pc n i p hrest hp (by rw [hoct]; rfl)]
      exact addPC_pitch n i p _ hlt' h0 h1 hdis hd1 hd2
    · rw [add_unfold_hard n i p o hrest hp hoct ho]
      obtain ⟨m, hm, hmp, hmrest⟩ := addHard_pitch n i p o (addLetter n i)
      refine ⟨m, hm, ?_, hmrest⟩
      rw [hmp]
      congr 1
      omega

/-- The tone loop of `Chord.__init__` succeeds on a good dictionary and
every produced tone realises `(p + d) mod 12` for some tone difference
`d` in 1..11. -/
theorem tonesOf_good (root : Note) (p : Int)
    (hp : root.pitch = some p) (h0 : 0 ≤ p) (h1 : p < 12) (hlt : root.letter < 7)
    (d : List (String × Interval)) (hd : ∀ kv ∈ d, goodIntvl kv.2) :
    ∃ ts, tonesOf root d = .ok ts ∧
      ∀ t ∈ ts, t.isRest = false ∧
        ∃ diff : Int, 1 ≤ diff ∧ diff ≤ 11 ∧ t.pitch = some ((p + diff) % 12) := by
  induction d with
  | nil => exact ⟨[], rfl, by simp⟩
  | cons kv rest ih =>
    obtain ⟨hdis, hd1, hd2⟩ := hd kv (List.mem_cons_self _ _)
    obtain ⟨m, hm, hmp, hmrest⟩ := add_pitch root kv.2 p hp h0 h1 hlt hdis hd1 hd2
    obtain ⟨ts, hts, htsp⟩ := ih (fun kv' h => hd kv' (List.mem_cons_of_mem _ h))
    refine ⟨m :: ts, ?_, ?_⟩
    · unfold tonesOf
      rw [hm, hts]
    · rintro t ht
      rcases List.mem_cons.mp ht with h | h
      · subst h
        exact ⟨hmrest, kv.2.difference, hd1, hd2, hmp⟩
      · exact htsp t h

/-- Membership after a keyed insertion. -/
theorem mem_insertKeyed (key : Note → Int) (x y : Note) (l : List Note)
    (h : y ∈ insertKeyed key x l) : y = x ∨ y ∈ l := by
  induction l with
  | nil => exact Or.inl (List.mem_singleton.mp h)
  | cons z zs ih =>
    unfold insertKeyed at h
    split at h
    · rcases List.mem_cons.mp h with h' | h'
      · exact Or.inr (by rw [h']; exact List.mem_cons_self _ _)
      · rcases ih h' with h'' | h''
        · exact Or.inl h''
        · exact Or.inr (List.mem_cons_of_mem _ h'')
    · rcases List.mem_cons.mp h with h' | h'
      · exact Or.inl h'
      · exact Or.inr h'

/-- Membership after the stable keyed sort. -/
theorem mem_isortKeyed (key : Note → Int) (y : Note) (l : List Note)
    (h : y ∈ isortKeyed key l) : y ∈ l := by
  induction l with
  | nil => exact absurd h (by simp [isortKeyed])
  | cons z zs ih =>
    unfold isortKeyed at h
    rcases mem_insertKeyed key z y _ h with h' | h'
    · rw [h']
      exact List.mem_cons_self _ _
    · exact List.mem_cons_of_mem _ (ih h')

/-- Inserting an element whose key every list member strictly exceeds
puts it in front. -/
theorem insertKeyed_head (key : Note → Int) (x : Note) (l : List Note)
    (h : ∀ y ∈ l, ¬ key y < key x) : insertKeyed key x l = x :: l := by
  cases l with
  | nil => rfl
  | cons y ys =>
    unfold insertKeyed
    rw [if_neg (h y (List.mem_cons_self _ _))]

/-- The deduplication loop only removes elements: its result is a
sublist of its input. -/
theorem dedupGo_sublist (fuel : Nat) :
    ∀ (l : List Note) (i : Nat) (prev : Note) (first : Bool),
      List.Sublist (dedupGo fuel l i prev first) l := by
  induction fuel with
  | zero => intro l i prev first; exact List.Sublist.refl l
  | succ f ih =>
    intro l i prev first
    unfold dedupGo
    split
    · exact List.Sublist.refl l
    · split
      · exact ih _ _ _ _
      · split
        · exact (ih _ _ _ _).trans (List.eraseIdx_sublist l i)
        · exact ih _ _ _ _

/-- Erasing at a positive index keeps the head. -/
theorem head?_eraseIdx_pos (l : List Note) (i : Nat) (h : 1 ≤ i) :
    (l.eraseIdx i).head? = l.head? := by
  cases l with
  | nil => rfl
  | cons a as =>
    cases i with
    | zero => omega
    | succ j => rfl

/-- Once past the first iteration, the deduplication loop keeps the head
of the list: removals only happen at the current index, which is at
least one. -/
theorem dedupGo_head (fuel : Nat) :
    ∀ (l : List Note) (i : Nat) (prev : Note), 1 ≤ i →
      (dedupGo fuel l i prev false).head? = l.head? := by
  induction fuel with
  | zero => intro l i prev hi; rfl
  | succ f ih =>
    intro l i prev hi
    unfold dedupGo
    split
    · rfl
    · split
      · simp_all
      · split
        · rw [ih _ _ _ (by omega)]
          exact head?_eraseIdx_pos l i hi
        · exact ih _ _ _ (by omega)

/-- The first iteration of the deduplication loop skips the head. -/
theorem dedupGo_start (f : Nat) (x : Note) (xs : List Note) (prev : Note) :
    dedupGo (f + 1) (x :: xs) 0 prev true = dedupGo f (x :: xs) 1 prev false := by
  conv_lhs => rw [dedupGo]
  simp

/-- C10 counterexample: the chord C major with extensions #5, b6 and b13
constructs successfully, and its notes tuple keeps two notes of pitch
class 8 (G sharp from the replaced fifth and A flat from the b6): the
three tones of class 8 sort adjacently, the removal of the second
shifts the list while the loop index advances, so the third is skipped
and survives. -/
theorem C10_counterexample :
    (chordInit ⟨false, 0, 0, none, 0, 0, false⟩ "maj" ["#5", "b6", "b13"]).map
        (fun c => c.notes.map Note.pitch) =
      .ok [some 0, some 2, some 4, some 8, some 8, some 10] ∧
    ¬ ([some (0 : Int), some 2, some 4, some 8, some 8, some 10] : List (Option Int)).Nodup := by
  constructor
  · rfl
  · decide

/-- C10 (amended): for every successfully constructed chord whose root
is a well-formed pitched note (letter in range, pitch class in 0..11),
the root is the first entry of the notes tuple and no other entry
shares the pitch class of the root; duplicate pitch classes *between
non-root tones*, however, can survive the deduplication pass (see the
counterexample), because the pass mutates the list it iterates. -/
theorem C10_root_pitch_class_unique (root : Note) (q : String) (exts : List String)
    (c : Chord) (p : Int)
    (hp : root.pitch = some p) (hp0 : 0 ≤ p) (hp1 : p < 12) (hlt : root.letter < 7)
    (hinit : chordInit root q exts = .ok c) :
    c.notes.head? = some root ∧ ∀ x ∈ c.notes.tail, x.pitch ≠ root.pitch := by
  unfold chordInit at hinit
  split at hinit
  · exact absurd hinit (by simp)
  split at hinit
  · exact absurd hinit (by simp)
  obtain ⟨ts, hts, htsp⟩ := tonesOf_good root p hp hp0 hp1 hlt _ (buildDictionary_good q exts)
  dsimp only at hinit
  rw [hts] at hinit
  dsimp only at hinit
  rw [Except.ok.injEq] at hinit
  subst hinit
  dsimp only
  set key := Note.sorter_from_root root with hkey
  set S := isortKeyed key ts with hS
  have hkroot : key root = p := by
    rw [hkey]
    unfold Note.sorter_from_root
    rw [hp]
    simp
  have hkts : ∀ y ∈ ts, ¬ key y < key root := by
    intro y hy
    obtain ⟨-, d, hd1, hd2, hyp⟩ := htsp y hy
    rw [hkroot, hkey]
    unfold Note.sorter_from_root
    rw [hyp, hp]
    simp only [Option.getD_some]
    have hm0 : 0 ≤ (p + d) % 12 := Int.emod_nonneg _ (by norm_num)
    have hm1 : (p + d) % 12 < 12 := Int.emod_lt_of_pos _ (by norm_num)
    have hne : (p + d) % 12 ≠ p := by omega
    split_ifs <;> omega
  have hsorted : isortKeyed key (root :: ts) = root :: S := by
    show insertKeyed key root S = root :: S
    exact insertKeyed_head key root S (fun y hy => hkts y (mem_isortKeyed key y ts hy))
  rw [hsorted]
  have hlen : (root :: S).length + 1 = S.length + 1 + 1 := by simp
  rw [hlen, dedupGo_start]
  have hhead : (dedupGo (S.length + 1) (root :: S) 1 root false).head? = some root := by
    rw [dedupGo_head _ _ _ _ (by omega)]
    rfl
  have hxpitch : ∀ y ∈ ts, y.pitch ≠ root.pitch := by
    intro y hy
    obtain ⟨-, d, hd1, hd2, hyp⟩ := htsp y hy
    rw [hyp, hp]
    intro heq
    have hinj := Option.some.inj heq
    have hm0 : 0 ≤ (p + d) % 12 := Int.emod_nonneg _ (by norm_num)
    omega
  refine ⟨hhead, ?_⟩
  have hsub := dedupGo_sublist (S.length + 1) (root :: S) 1 root false
  intro x hx
  rcases hout : dedupGo (S.length + 1) (root :: S) 1 root false with - | ⟨a, t⟩
  · rw [hout] at hhead
    exact absurd hhead (by simp)
  · rw [hout] at hhead hsub hx
    have ha : a = root := by simpa using hhead
    rw [ha] at hsub
    simp only [List.tail_cons] at hx
    cases hsub with
    | cons _ h =>
      exact absurd rfl
        (hxpitch root (mem_isortKeyed key root ts (h.mem (List.mem_cons_self _ _))))
    | cons₂ _ h =>
      exact hxpitch x (mem_isortKeyed key x ts (h.mem hx))

/-- C10 witness: the amended theorem applied to the plain C major triad,
whose construction succeeds by evaluation. -/
theorem C10_witness :
    ∃ c, chordInit ⟨false, 0, 0, none, 0, 0, false⟩ "maj" [] = .ok c ∧
      c.notes.head? = some ⟨false, 0, 0, none, 0, 0, false⟩ ∧
      ∀ x ∈ c.notes.tail, x.pitch ≠ Note.pitch ⟨false, 0, 0, none, 0, 0, false⟩ := by
  refine ⟨_, rfl, ?_⟩
  exact C10_root_pitch_class_unique ⟨false, 0, 0, none, 0, 0, false⟩ "maj" [] _ 0 rfl
    (by norm_num) (by norm_num) (by norm_num) rfl

/-- A note of the earlier revision src/musictools_old.py: the chord
classifier there works on note name strings; a well-formed pitched name
is a letter (index 0 = C through 6 = B, the `_LETTERS` order) and a
uniform accidental run (`acc` positive = sharps, negative = flats), and
two names are equal exactly when these values are.  The classifier is
never reached with rest names, so the embedding has no rest variant. -/
structure ONote where
  letter : Nat
  acc : Int
  deriving DecidableEq, Repr

/-- `Note.pitch` of the old revision (lines 96-114): the same
natural-pitch table and single conditional wrap as the new revision. -/
def ONote.pitch (n : ONote) : Int :=
  let base := naturalPitch n.letter
  if 0 < n.acc then
    (if 11 < base + n.acc then base + n.acc - 12 else base + n.acc)
  else if n.acc < 0 then
    (if base + n.acc < 0 then base + n.acc + 12 else base + n.acc)
  else base

/-- The letter names of the old `_LETTERS` table, for rendering. -/
def oLetterStr : Nat → String
  | 0 => "C"
  | 1 => "D"
  | 2 => "E"
  | 3 => "F"
  | 4 => "G"
  | 5 => "A"
  | _ => "B"

/-- The name string of an old note. -/
def oName (n : ONote) : String :=
  oLetterStr n.letter ++
    (if 0 < n.acc then String.join (List.replicate n.acc.toNat "#")
     else String.join (List.replicate (-n.acc).toNat "b"))

/-- `Interval._SIMPLE_INTERVAL_NAMES` of the old revision (lines
347-360) applied after the `__init__` wrap of the pitch difference into
0..11 (lines 391-394); the dictionary covers every wrapped value. -/
def simpleIntervalName (pd0 : Int) : String :=
  let pd1 := if 11 < pd0 then pd0 - 12 else pd0
  let pd := if pd1 < 0 then pd1 + 12 else pd1
  if pd = 0 then "perfect unison"
  else if pd = 1 then "minor 2nd"
  else if pd = 2 then "major 2nd"
  else if pd = 3 then "minor 3rd"
  else if pd = 4 then "major 3rd"
  else if pd = 5 then "perfect 4th"
  else if pd = 6 then "tritone"
  else if pd = 7 then "perfect 5th"
  else if pd = 8 then "minor 6th"
  else if pd = 9 then "major 6th"
  else if pd = 10 then "minor 7th"
  else "major 7th"

/-- A `Chord` object of the old revision (lines 778-805): the stored
note names, the root, and the optional inversion bass. -/
structure OChord where
  notes : List ONote
  root : ONote
  bass : Option ONote
  deriving DecidableEq, Repr

/-- The old `Chord.__init__` (lines 787-805): an explicit root is
prepended when it is not already among the notes; otherwise the first
note is the root.  (The tuple-spreading of the first argument is a
Python calling-convention detail with no content here, and the empty
call that would IndexError does not arise.) -/
def oChordInit (notes : List ONote) (root bass : Option ONote) : OChord :=
  match root with
  | some r => if r ∈ notes then ⟨notes, r, bass⟩ else ⟨r :: notes, r, bass⟩
  | none => ⟨notes, notes.headD ⟨0, 0⟩, bass⟩

/-- The relative pitch used by `sorted_notes` (lines 820-822). -/
def relPitch (root n : ONote) : Int :=
  let d := n.pitch - root.pitch
  if d < 0 then d + 12 else d

/-- Ascending insertion of an integer key. -/
def insertInt (x : Int) : List Int → List Int
  | [] => [x]
  | y :: ys => if y ≤ x then y :: insertInt x ys else x :: y :: ys

/-- `sorted(keys)` on integer keys. -/
def sortInts : List Int → List Int
  | [] => []
  | x :: xs => insertInt x (sortInts xs)

/-- Python dict lookup for the relative-pitch dictionary: the *last*
assignment to a key wins. -/
def lastAssoc (l : List (Int × ONote)) (k : Int) : ONote :=
  match l.reverse.find? (fun kv => kv.1 == k) with
  | some kv => kv.2
  | none => ⟨0, 0⟩

/-- `Chord.sorted_notes` of the old revision (lines 810-829): key every
note by its relative pitch from the root (collisions overwrite), sort
the key list (duplicates included), and read the dictionary back in key
order (a duplicated key reads the surviving note twice). -/
def oSortedNotes (c : OChord) : List ONote :=
  let keyed := c.notes.map (fun n => (relPitch c.root n, n))
  let keys := sortInts (c.notes.map (relPitch c.root))
  keys.map (lastAssoc keyed)

/-- `Chord.chord_intervals` of the old revision (lines 838-849): the
simple interval from the root to each sorted note; the guard compares
against the capitalised string "Unison", which never matches the
lowercase names, so the "perfect unison" of the root itself is kept. -/
def oChordIntervals (c : OChord) : List String :=
  ((oSortedNotes c).map (fun n => simpleIntervalName (n.pitch - c.root.pitch))).filter
    (fun s => s ≠ "Unison")

/-- The index walk of `Chord.intvl_note_dict` (lines 857-864), with the
two list accesses that can raise IndexError made explicit. -/
def oIntvlGo (sorted : List ONote) (root : ONote) :
    List String → Nat → List (String × ONote) → Except PyErr (List (String × ONote))
  | [], _, acc => .ok acc.reverse
  | intvl :: rest, i, acc =>
    match sorted[i]? with
    | none => .error (.exception "IndexError: list index out of range")
    | some ni =>
      let j := if ni = root then i + 1 else i
      match sorted[j]? with
      | none => .error (.exception "IndexError: list index out of range")
      | some nv => oIntvlGo sorted root rest (j + 1) ((intvl, nv) :: acc)

/-- `Chord.intvl_note_dict` of the old revision (lines 851-864). -/
def oIntvlNoteDict (c : OChord) : Except PyErr (List (String × ONote)) :=
  oIntvlGo (oSortedNotes c) c.root (oChordIntervals c) 0 []

/-- Last-assignment-wins lookup in the interval dictionary. -/
def oDictGet (d : List (String × ONote)) (k : String) : Option ONote :=
  (d.reverse.find? (fun kv => kv.1 == k)).map (fun kv => kv.2)

/-- The description dictionary of the old revision (lines 866-1005):
the keys it may carry, with `sus` and `triad` optional exactly as the
source only sometimes assigns them. -/
structure ODesc where
  extensions : String
  trueRoot : ONote
  seventhChord : Bool
  sixthChord : Bool
  diminishedType : String
  sus : Option Bool
  triad : Option String
  deriving DecidableEq, Repr

/-- `Chord.description` of the old revision (lines 866-1005), with
explicit recursion fuel for the re-rooting calls (the CPython recursion
limit; no claim exercises a recursive branch).  The re-rooting branches
look their pivot note up under capitalised interval names ("Perfect
4th", "Minor 2nd", ...), while the dictionary keys are lowercase, so
those lookups raise KeyError when reached.  The sus branch sets only
the `sus` flag and the "(sus)" token and falls straight to the return:
no `triad` key is ever assigned for it, and the bass slash of the main
branch is skipped. -/
def oDescription : Nat → OChord → Except PyErr ODesc
  | 0, _ => .error (.exception "RecursionError: maximum recursion depth exceeded")
  | fuel + 1, c =>
    let intvls := oChordIntervals c
    let m2 := intvls.contains "minor 2nd"
    let M2 := intvls.contains "major 2nd"
    let has2 := m2 || M2
    let m3 := intvls.contains "minor 3rd"
    let M3 := intvls.contains "major 3rd"
    let has3 := m3 || M3
    let P4 := intvls.contains "perfect 4th"
    let TT := intvls.contains "tritone"
    let P5 := intvls.contains "perfect 5th"
    let m6 := intvls.contains "minor 6th"
    let M6 := intvls.contains "major 6th"
    let has6 := m6 || M6
    let m7 := intvls.contains "minor 7th"
    let M7 := intvls.contains "major 7th"
    let has7 := m7 || M7
    let base : ODesc := ⟨"", c.root, false, false, "", none, none⟩
    if !has3 then
      if P4 && P5 then
        .ok { base with sus := some true, extensions := "(sus)" }
      else if P4 && has6 then
        match oIntvlNoteDict c with
        | .error e => .error e
        | .ok dict =>
          match oDictGet dict "Perfect 4th" with
          | none => .error (.keyError "Perfect 4th")
          | some newRoot => oDescription fuel (oChordInit c.notes (some newRoot) (some c.root))
      else if has2 && (P4 || TT) && has6 then
        if m2 then
          match oIntvlNoteDict c with
          | .error e => .error e
          | .ok dict =>
            match oDictGet dict "Minor 2nd" with
            | none => .error (.keyError "Minor 2nd")
            | some newRoot => oDescription fuel (oChordInit c.notes (some newRoot) (some c.root))
        else
          match oIntvlNoteDict c with
          | .error e => .error e
          | .ok dict =>
            match oDictGet dict "Major 2nd" with
            | none => .error (.keyError "Major 2nd")
            | some newRoot =>
              oDescription fuel (oChordInit (oSortedNotes c) (some newRoot) (some c.root))
      else .ok base
    else if has3 && has6 && !TT && !P5 then
      if m6 then
        match oIntvlNoteDict c with
        | .error e => .error e
        | .ok dict =>
          match oDictGet dict "Minor 6th" with
          | none => .error (.keyError "Minor 6th")
          | some newRoot => oDescription fuel (oChordInit c.notes (some newRoot) (some c.root))
      else
        match oIntvlNoteDict c with
        | .error e => .error e
        | .ok dict =>
          match oDictGet dict "Major 6th" with
          | none => .error (.keyError "Major 6th")
          | some newRoot => oDescription fuel (oChordInit c.notes (some newRoot) (some c.root))
    else
      let triad : Option String :=
        if M3 then (if m6 && !P5 then some "augmented" else some "major")
        else if m3 then (if !TT || P5 then some "minor" else some "diminished")
        else none
      let tDim := triad == some "diminished"
      let fully := has6 && !has7 && tDim && M6
      let sixthChord := has6 && !has7 && !(tDim && M6)
      let dimType := if fully then "fully" else ""
      let ext := ""
      let ext := ext ++
        (if sixthChord then
          (if M6 then (if M2 then "(6/9)" else "6") else if m6 then "(b6)" else "")
         else "")
      let ext := ext ++
        (if !has7 then
          ((if TT && !P5 && !tDim then "(b5)" else "") ++
           (if m2 then "(addb9)" else if M2 && !M6 then "(add9)" else ""))
         else "")
      let dimType := if tDim && m7 then "half" else dimType
      let ext := ext ++
        (if has7 then
          ((if M3 && M7 then "maj" else "") ++
           (if M6 then "13" else if M2 then "9" else "") ++
           (if !M3 && M7 then "(maj7)" else if !M6 && !M2 then "7" else "") ++
           (if TT && !P5 && !tDim then "(b5)" else "") ++
           (if m2 then "(b9)" else "") ++
           (if m6 then "(b13)" else ""))
         else "")
      let ext := ext ++
        (if dimType = "fully" then
          ((if M2 then "9" else "") ++
           (if M7 then "(maj7)" else (if !M2 then "7" else "")) ++
           (if m2 then "(b9)" else ""))
         else "")
      let ext := ext ++ (if M3 && m3 then "(#9)" else "")
      let ext := ext ++ (if P4 && has3 then "(add4)" else "")
      let ext := ext ++ (if M3 && m3 then "(#9)" else "")
      let ext := ext ++ (if TT && P5 then "(#11)" else "")
      let ext := ext ++
        (match c.bass with
         | some b => "/" ++ oName b
         | none => "")
      .ok ⟨ext, c.root, fully, sixthChord, dimType, none, triad⟩

/-- `Chord.symbol` of the old revision (lines 1007-1025): render the
root name, the triad glyph (reading the `triad` key, which raises
KeyError when the description never assigned it), and the accumulated
extension string.  The property recomputes `description`, which is
pure, so one computation serves. -/
def oSymbol (fuel : Nat) (c : OChord) : Except PyErr String :=
  match oDescription fuel c with
  | .error e => .error e
  | .ok d =>
    let sym := oName d.trueRoot
    match d.triad with
    | none => .error (.keyError "triad")
    | some t =>
      let sym := sym ++
        (if t = "minor" then "m"
         else if t = "augmented" then "+"
         else if t = "diminished" then (if d.diminishedType = "half" then "%" else "°")
         else "")
      .ok (sym ++ d.extensions)

example : oSymbol 8 (oChordInit [⟨0, 0⟩, ⟨2, 0⟩, ⟨4, 0⟩, ⟨6, -1⟩] none none) = .ok "C7" := by
  rfl
example : oSymbol 8 (oChordInit [⟨0, 0⟩, ⟨2, 0⟩, ⟨4, 0⟩, ⟨6, 0⟩, ⟨1, 0⟩] none none)
    = .ok "Cmaj9" := by rfl
example : oSymbol 8 (oChordInit [⟨0, 0⟩, ⟨2, -1⟩, ⟨4, -1⟩, ⟨5, 0⟩] none none)
    = .ok "C°7" := by rfl

/-- C7: evaluation at the failing input.  The chord with root C and
other notes F and G is recognised as suspended — its description gets
`sus = True` and the extension token "(sus)" — but that branch of
`description` never assigns the "triad" key, and `symbol`
unconditionally reads `description["triad"]`, so the symbol query raises
KeyError instead of returning "Csus"; even with a guarded read the
accumulated token would render "C(sus)".  (The neighbouring vectors
C7, Cmaj9 and the fully diminished seventh of the same specification
list are reproduced by the examples above.) -/
theorem C7_sus_symbol_raises :
    oSymbol 8 (oChordInit [⟨0, 0⟩, ⟨3, 0⟩, ⟨4, 0⟩] none none) = .error (.keyError "triad") ∧
    (oDescription 8 (oChordInit [⟨0, 0⟩, ⟨3, 0⟩, ⟨4, 0⟩] none none)).map
        (fun d => (d.sus, d.extensions, d.triad)) = .ok (some true, "(sus)", none) := by
  constructor <;> rfl

end MusicTools
